import Mathlib

/-!
Verification development for the CreateOverview utility
(src/create_overview.py): a shallow embedding of its pattern matcher,
content reporter, tree reporter and configuration handling, together
with theorems about the documented behaviour.
-/

namespace CreateOverview

/-! Shell-style glob matching, modelling the Python standard library
function fnmatch.fnmatch as used by should_process (on POSIX the case
normalisation is the identity, so it is omitted).  The pattern is first
translated into a token list exactly as fnmatch.translate scans it, and
tokens are then matched against the whole subject string. -/

/-- Membership of a character in a bracket character class, where a
three-character group x-y denotes the inclusive range and any other
character stands for itself (as in the regex classes produced by
fnmatch.translate). -/
def charInClass (c : Char) : List Char → Bool
  | a :: '-' :: b :: rest => (decide (a ≤ c) && decide (c ≤ b)) || charInClass c rest
  | a :: rest => (a == c) || charInClass c rest
  | [] => false

/-- Scan forward to the next unconsumed right bracket, returning the
characters before it and the remainder; none when the bracket is never
closed (fnmatch then treats the left bracket as a literal). -/
def splitOnRBrack (acc : List Char) : List Char → Option (List Char × List Char)
  | [] => none
  | ']' :: rest => some (acc.reverse, rest)
  | c :: rest => splitOnRBrack (c :: acc) rest

/-- Parse the body of a bracket expression after the opening bracket,
following the scan of fnmatch.translate: an initial bang negates the
class, and a right bracket immediately after it (or after the opening
bracket) belongs to the class body. -/
def parseClass (l : List Char) : Option (Bool × List Char × List Char) :=
  let step : Bool × List Char := match l with
    | '!' :: r => (true, r)
    | _ => (false, l)
  match step.2 with
  | ']' :: r2 =>
      (splitOnRBrack [']'] r2).map (fun pr => (step.1, pr.1, pr.2))
  | other =>
      (splitOnRBrack [] other).map (fun pr => (step.1, pr.1, pr.2))

/-- Tokens of a translated glob pattern: star, single-character
wildcard, bracket class, or literal character. -/
inductive GlobTok where
  | star
  | anyChar
  | cls (neg : Bool) (body : List Char)
  | lit (c : Char)
deriving DecidableEq

/-- Translate a glob pattern into tokens, consuming at least one input
character per step; the fuel argument is initialised to the pattern
length and therefore never runs out. -/
def translateAux : Nat → List Char → List GlobTok
  | 0, _ => []
  | _, [] => []
  | fuel + 1, '*' :: ps => .star :: translateAux fuel ps
  | fuel + 1, '?' :: ps => .anyChar :: translateAux fuel ps
  | fuel + 1, '[' :: ps =>
      match parseClass ps with
      | none => .lit '[' :: translateAux fuel ps
      | some (neg, body, rest) => .cls neg body :: translateAux fuel rest
  | fuel + 1, c :: ps => .lit c :: translateAux fuel ps

/-- Match a token list against the whole subject string (fnmatch anchors
the translated regex at both ends). -/
def tokMatch : List GlobTok → List Char → Bool
  | [], s => s.isEmpty
  | .star :: ts, s => (List.range (s.length + 1)).any fun k => tokMatch ts (s.drop k)
  | .anyChar :: ts, s =>
      match s with
      | [] => false
      | _ :: s2 => tokMatch ts s2
  | .cls neg body :: ts, s =>
      match s with
      | [] => false
      | c :: s2 => (charInClass c body != neg) && tokMatch ts s2
  | .lit a :: ts, s =>
      match s with
      | [] => false
      | c :: s2 => (a == c) && tokMatch ts s2

/-- Model of fnmatch.fnmatch name pattern. -/
def fnmatch (name pat : String) : Bool :=
  tokMatch (translateAux pat.data.length pat.data) name.data

/-! Path helpers, modelling the posixpath functions used by
should_process and the reporters.  Paths are plain strings; both
arguments of relpath are taken as already absolute, which is how the
program calls it (os.walk hands back paths built from the root it was
given). -/

/-- Split a character list at every occurrence of the separator,
keeping empty segments, like the Python str.split with one separator. -/
def splitCharAux (sep : Char) : List Char → List (List Char)
  | [] => [[]]
  | a :: rest =>
      let r := splitCharAux sep rest
      if a == sep then [] :: r
      else
        match r with
        | h :: t => (a :: h) :: t
        | [] => [[a]]

/-- Split a string on a separator character. -/
def splitChar (sep : Char) (s : String) : List String :=
  (splitCharAux sep s.data).map String.mk

/-- Nonempty slash-separated components of a path, as collected by
posixpath.relpath. -/
def pathParts (p : String) : List String :=
  (splitChar '/' p).filter (fun s => !(s == ""))

/-- Length of the longest common prefix of two component lists. -/
def commonPrefixLen : List String → List String → Nat
  | a :: as, b :: bs => if a = b then commonPrefixLen as bs + 1 else 0
  | _, _ => 0

/-- Join components with slashes. -/
def intercalateSlash (l : List String) : String :=
  String.mk (List.flatten (List.intersperse ['/'] (l.map String.data)))

/-- Model of os.path.relpath path start on POSIX: drop the common
component prefix, climb out of the remaining start components, descend
into the remaining path components, and render the empty result as a
single dot. -/
def relpath (path start : String) : String :=
  let pl := pathParts path
  let sl := pathParts start
  let i := commonPrefixLen sl pl
  let rel := List.replicate (sl.length - i) ".." ++ pl.drop i
  if rel.isEmpty then "." else intercalateSlash rel

/-- Model of os.path.basename: the part after the last slash. -/
def basename (p : String) : String :=
  (splitChar '/' p).getLastD ""

/-- Model of os.path.join dirpath name for a nonempty first argument
without a trailing slash and a relative second argument, which is how
the program always calls it. -/
def pjoin (a b : String) : String := a ++ "/" ++ b

/-- Model of should_process (src/create_overview.py lines 39-72): the
root itself always passes; with a nonempty include set the relative
path or base name must match some include pattern; a match of any
ignore pattern against the relative path or base name then rejects. -/
def should_process (path root_dir : String)
    (include_patterns ignore_patterns : List String) : Bool :=
  let rel_path := relpath path root_dir
  let base_name := basename path
  if rel_path = "." then true
  else if !include_patterns.isEmpty
      && !(include_patterns.any fun pat => fnmatch rel_path pat || fnmatch base_name pat) then
    false
  else if ignore_patterns.any (fun pat => fnmatch rel_path pat || fnmatch base_name pat) then
    false
  else true

/-! Model of the description request (src/create_overview.py lines
75-150).  The HTTP transport and JSON decoding are abstracted into an
ApiResponse outcome: a success carries the stripped description text
and the token usage numbers extracted from the response, each except
branch of get_file_description is one handled-failure constructor, and
uncaughtError stands for the exceptions the field accesses of line 123
can raise on a malformed response structure (IndexError on an empty
choices list, TypeError or AttributeError on wrongly typed fields)
that no except branch catches. -/

/-- Token usage numbers extracted from a successful response. -/
structure UsageInfo where
  prompt_tokens : Nat
  completion_tokens : Nat
  total_tokens : Nat
deriving DecidableEq

/-- Outcome of the single outbound request issued per file: one
constructor per handled exception class of get_file_description, and
uncaughtError for a malformed response structure whose field access at
line 123 raises an exception caught by no handler. -/
inductive ApiResponse where
  | success (description : String) (usage : UsageInfo)
  | httpError
  | connectionError
  | timeoutError
  | requestError
  | keyError
  | uncaughtError
deriving DecidableEq

/-- Fallback description returned by get_file_description on any
handled request failure (line 150). -/
def fallbackDescription : String := "Description unavailable due to an API error."

/-- True on the failure outcomes that one of the except branches of
get_file_description catches. -/
def isHandledFailure : ApiResponse → Bool
  | .httpError => true
  | .connectionError => true
  | .timeoutError => true
  | .requestError => true
  | .keyError => true
  | _ => false

/-- True on the outcome whose exception no handler catches. -/
def isUncaughtError : ApiResponse → Bool
  | .uncaughtError => true
  | _ => false

/-- Model of get_file_description: a successful request yields the
description and its usage numbers, any handled failure yields the
fixed fallback string and an empty usage record (modelled as none),
and an uncaught exception yields no value at all: none models the
exception propagating to the caller. -/
def get_file_description (resp : ApiResponse) : Option (String × Option UsageInfo) :=
  match resp with
  | .success d u => some (d, some u)
  | .uncaughtError => none
  | _ => some (fallbackDescription, none)

/-- The pair get_file_description hands back when it returns normally.
The crash-free walk model below uses this total projection; the
bridging theorem to the crash-propagating run model makes precise that
the two agree exactly when no request outcome is uncaughtError. -/
def handled_description (resp : ApiResponse) : String × Option UsageInfo :=
  (get_file_description resp).getD (fallbackDescription, none)

/-- Python truthiness of an optional string: present and nonempty. -/
def truthyStr (s : Option String) : Bool :=
  match s with
  | none => false
  | some v => !(v == "")

/-! Filesystem model.  A directory tree is a mutual inductive of nodes
and child lists; the order of a child list is the order in which the
underlying enumeration (os.scandir, via os.walk) yields the entries.
Each node carries the permission string and owner name that os.stat
would report (stat is modelled as always succeeding), and each file
carries a readability flag (false models an IOError on open) and its
text content. -/

/-- Stat metadata of one filesystem entry. -/
structure FMeta where
  permissions : String
  owner : String
deriving DecidableEq

mutual
/-- One filesystem entry: a regular file or a directory. -/
inductive FSNode where
  | file (name : String) (fmeta : FMeta) (readable : Bool) (content : String)
  | dir (name : String) (fmeta : FMeta) (children : FSList)

/-- A list of sibling entries in enumeration order. -/
inductive FSList where
  | nil
  | cons (head : FSNode) (tail : FSList)
end

/-- Entry name. -/
def FSNode.name : FSNode → String
  | .file n _ _ _ => n
  | .dir n _ _ => n

/-- Entry stat metadata. -/
def FSNode.fmeta : FSNode → FMeta
  | .file _ m _ _ => m
  | .dir _ m _ => m

/-- Directory test, as os.path.isdir reports it. -/
def FSNode.isDir : FSNode → Bool
  | .file _ _ _ _ => false
  | .dir _ _ _ => true

/-- File test. -/
def FSNode.isFile : FSNode → Bool
  | .file _ _ _ _ => true
  | .dir _ _ _ => false

/-- Convert a sibling list to a plain list. -/
def FSList.toList : FSList → List FSNode
  | .nil => []
  | .cons h t => h :: t.toList

/-- Concatenate sibling lists. -/
def FSList.append : FSList → FSList → FSList
  | .nil, l => l
  | .cons h t, l => .cons h (t.append l)

/-! Content reporter (process_all_python_files, lines 153-236).  The
model follows os.walk top-down: for each visited directory the file
children are processed in enumeration order, then the directory
children that pass should_process are descended into in enumeration
order; a directory child that fails should_process is removed before
descent (the in-place dirnames filtering).  The value produced is the
list of file records that the function accumulates in overview_data
and serialises to the JSON artifact; the network is a function from
file content to an ApiResponse. -/

/-- One record of the JSON output.  The description field is an Option
because the Python dict contains the key only on the branch with an
API key. -/
structure FileEntry where
  filename : String
  filepath : String
  description : Option String
  content : String
deriving DecidableEq

/-- Suffix test on strings, modelling str.endswith. -/
def strEndsWith (s p : String) : Bool :=
  p.data.reverse.isPrefixOf s.data.reverse

/-- One iteration of the filename loop of a visited directory (lines
180-225) in the crash-free regime: none when the entry is a directory
name, is rejected by should_process, lacks the .py suffix, or cannot
be read; otherwise the record that the iteration appends, with the
description present exactly when the api key is truthy.  The request
value is taken through handled_description, so this describes the
iterations of a run in which no request outcome is uncaughtError; the
crash-propagating iteration below is fileEntryRun, and the bridging
theorem equates the two on such runs. -/
def fileEntryFor (root_dir : String) (include_patterns ignore_patterns : List String)
    (api_key : Option String) (net : String → ApiResponse) (dirpath : String) :
    FSNode → Option FileEntry
  | .dir _ _ _ => none
  | .file fname _ readable content =>
      let filepath := pjoin dirpath fname
      if !(should_process filepath root_dir include_patterns ignore_patterns) then none
      else if strEndsWith fname ".py" then
        if readable then
          some (if truthyStr api_key then
            ⟨fname, filepath, some (handled_description (net content)).fst, content⟩
          else
            ⟨fname, filepath, none, content⟩)
        else none
      else none

/-- The records appended while looping over the filenames of one
visited directory, in enumeration order. -/
def processFileEntries (root_dir : String) (include_patterns ignore_patterns : List String)
    (api_key : Option String) (net : String → ApiResponse) (dirpath : String)
    (l : List FSNode) : List FileEntry :=
  l.filterMap (fileEntryFor root_dir include_patterns ignore_patterns api_key net dirpath)

mutual
/-- The walk of one visited directory node: its own files are
processed when the directory passes should_process (the check with
continue at line 176; always true for reachable directories), then the
child directories are walked. -/
def process_walk (root_dir : String) (include_patterns ignore_patterns : List String)
    (api_key : Option String) (net : String → ApiResponse) (dirpath : String) :
    FSNode → List FileEntry
  | .file _ _ _ _ => []
  | .dir _ _ children =>
      (if should_process dirpath root_dir include_patterns ignore_patterns then
        processFileEntries root_dir include_patterns ignore_patterns api_key net dirpath
          children.toList
      else [])
      ++ process_walk_list root_dir include_patterns ignore_patterns api_key net dirpath children

/-- Descent into the directory children in enumeration order; a child
that fails should_process is pruned and its subtree never visited
(the dirnames in-place filter at line 174). -/
def process_walk_list (root_dir : String) (include_patterns ignore_patterns : List String)
    (api_key : Option String) (net : String → ApiResponse) (dirpath : String) :
    FSList → List FileEntry
  | .nil => []
  | .cons c rest =>
      (match c with
        | .file _ _ _ _ => []
        | .dir d _ _ =>
            if should_process (pjoin dirpath d) root_dir include_patterns ignore_patterns then
              process_walk root_dir include_patterns ignore_patterns api_key net (pjoin dirpath d) c
            else [])
      ++ process_walk_list root_dir include_patterns ignore_patterns api_key net dirpath rest
end

/-! Crash-propagating model of the same content reporter run.  An
uncaught exception raised inside get_file_description propagates past
the except branches of lines 139-148, past the outer handler of line
227 which catches only IOError and OSError, and past main: the
process dies with a traceback before the JSON dump of line 232, so no
record list is produced at all.  The value none models that aborted
run; some records models a completed run. -/

/-- One iteration of the filename loop in the crash-aware model: none
when an uncaught exception kills the run during this iteration, some
none when the iteration appends nothing, some (some e) when it appends
the record e. -/
def fileEntryRun (root_dir : String) (include_patterns ignore_patterns : List String)
    (api_key : Option String) (net : String → ApiResponse) (dirpath : String) :
    FSNode → Option (Option FileEntry)
  | .dir _ _ _ => some none
  | .file fname _ readable content =>
      let filepath := pjoin dirpath fname
      if !(should_process filepath root_dir include_patterns ignore_patterns) then some none
      else if strEndsWith fname ".py" then
        if readable then
          if truthyStr api_key then
            match get_file_description (net content) with
            | none => none
            | some pr => some (some ⟨fname, filepath, some pr.fst, content⟩)
          else some (some ⟨fname, filepath, none, content⟩)
        else some none
      else some none

/-- The filename loop of one visited directory in the crash-aware
model: the records appended in enumeration order, or none when some
iteration raises an uncaught exception. -/
def fileEntriesRun (root_dir : String) (include_patterns ignore_patterns : List String)
    (api_key : Option String) (net : String → ApiResponse) (dirpath : String) :
    List FSNode → Option (List FileEntry)
  | [] => some []
  | c :: rest =>
      match fileEntryRun root_dir include_patterns ignore_patterns api_key net dirpath c with
      | none => none
      | some none => fileEntriesRun root_dir include_patterns ignore_patterns api_key net dirpath rest
      | some (some e) =>
          (fileEntriesRun root_dir include_patterns ignore_patterns api_key net dirpath rest).map
            (fun l => e :: l)

mutual
/-- The crash-aware walk of one visited directory node: none when an
uncaught exception aborts the run anywhere below it, otherwise the
records of the completed walk. -/
def process_run (root_dir : String) (include_patterns ignore_patterns : List String)
    (api_key : Option String) (net : String → ApiResponse) (dirpath : String) :
    FSNode → Option (List FileEntry)
  | .file _ _ _ _ => some []
  | .dir _ _ children =>
      match (if should_process dirpath root_dir include_patterns ignore_patterns then
              fileEntriesRun root_dir include_patterns ignore_patterns api_key net dirpath
                children.toList
            else some []) with
      | none => none
      | some here =>
          (process_run_list root_dir include_patterns ignore_patterns api_key net dirpath
            children).map (fun t => here ++ t)

/-- The crash-aware descent into the directory children in
enumeration order, pruning exactly as the crash-free walk. -/
def process_run_list (root_dir : String) (include_patterns ignore_patterns : List String)
    (api_key : Option String) (net : String → ApiResponse) (dirpath : String) :
    FSList → Option (List FileEntry)
  | .nil => some []
  | .cons c rest =>
      match (match c with
              | .file _ _ _ _ => some []
              | .dir d _ _ =>
                  if should_process (pjoin dirpath d) root_dir include_patterns ignore_patterns then
                    process_run root_dir include_patterns ignore_patterns api_key net
                      (pjoin dirpath d) c
                  else some []) with
      | none => none
      | some h =>
          (process_run_list root_dir include_patterns ignore_patterns api_key net dirpath
            rest).map (fun t => h ++ t)
end

example :
    process_walk "/r" [] [".*"] none (fun _ => .timeoutError) "/r"
      (.dir "r" ⟨"drwx", "u"⟩
        (.cons (.file "a.py" ⟨"-rw-", "u"⟩ true "x=1")
          (.cons (.dir ".hidden" ⟨"drwx", "u"⟩
            (.cons (.file "b.py" ⟨"-rw-", "u"⟩ true "y=2") .nil)) .nil)))
      = [⟨"a.py", "/r/a.py", none, "x=1"⟩] := by decide

example :
    process_run "/r" [] [] (some "key") (fun _ => .uncaughtError) "/r"
      (.dir "r" ⟨"drwx", "u"⟩ (.cons (.file "a.py" ⟨"-rw-", "u"⟩ true "x=1") .nil)) = none := by
  decide

example :
    process_run "/r" [] [] (some "key") (fun _ => .timeoutError) "/r"
      (.dir "r" ⟨"drwx", "u"⟩ (.cons (.file "a.py" ⟨"-rw-", "u"⟩ true "x=1") .nil))
      = some [⟨"a.py", "/r/a.py", some fallbackDescription, "x=1"⟩] := by decide

/-! Tree reporter (generate_tree_view, lines 239-302).  The model
produces the tree_data list serialised to the JSON artifact and, via a
rendering step, the sequence of text lines written to the text
artifact (each write adds a newline, and the directory header is
written with a leading blank line; the model keeps the logical lines).
os.stat is modelled as always succeeding, reporting the metadata
stored on the node. -/

/-- One child entry of a directory section, as appended to the JSON
contents list. -/
structure EntryInfo where
  name : String
  permissions : String
  owner : String
  type : String
deriving DecidableEq

/-- One directory section of the JSON output. -/
structure DirectoryInfo where
  directory : String
  contents : List EntryInfo
deriving DecidableEq

/-- Whether a child entry passes should_process under its joined path. -/
def passes_sp (root_dir : String) (include_patterns ignore_patterns : List String)
    (dirpath : String) (c : FSNode) : Bool :=
  should_process (pjoin dirpath c.name) root_dir include_patterns ignore_patterns

/-- The entry record built from a stat of one child (lines 275-286). -/
def mkEntry (c : FSNode) : EntryInfo :=
  ⟨c.name, c.fmeta.permissions, c.fmeta.owner, if c.isDir then "directory" else "file"⟩

/-- The per-directory entry loop (lines 269-289): iterate over the
already-filtered dirnames followed by the filenames, re-check
should_process on each, and append one entry per passing child. -/
def tree_entry_list (root_dir : String) (include_patterns ignore_patterns : List String)
    (dirpath : String) (children : List FSNode) : List EntryInfo :=
  let dirnames := children.filter
    (fun c => c.isDir && passes_sp root_dir include_patterns ignore_patterns dirpath c)
  let filenames := children.filter (fun c => c.isFile)
  (dirnames ++ filenames).filterMap (fun c =>
    if passes_sp root_dir include_patterns ignore_patterns dirpath c then some (mkEntry c)
    else none)

mutual
/-- Walk of the tree reporter: one DirectoryInfo per visited directory
that passes should_process, followed by the sections of its surviving
child directories in enumeration order. -/
def tree_walk (root_dir : String) (include_patterns ignore_patterns : List String)
    (dirpath : String) : FSNode → List DirectoryInfo
  | .file _ _ _ _ => []
  | .dir _ _ children =>
      (if should_process dirpath root_dir include_patterns ignore_patterns then
        [⟨dirpath, tree_entry_list root_dir include_patterns ignore_patterns dirpath
          children.toList⟩]
      else [])
      ++ tree_walk_list root_dir include_patterns ignore_patterns dirpath children

/-- Descent of the tree reporter into the directory children, pruning
the ones rejected by should_process before descent. -/
def tree_walk_list (root_dir : String) (include_patterns ignore_patterns : List String)
    (dirpath : String) : FSList → List DirectoryInfo
  | .nil => []
  | .cons c rest =>
      (match c with
        | .file _ _ _ _ => []
        | .dir d _ _ =>
            if should_process (pjoin dirpath d) root_dir include_patterns ignore_patterns then
              tree_walk root_dir include_patterns ignore_patterns (pjoin dirpath d) c
            else [])
      ++ tree_walk_list root_dir include_patterns ignore_patterns dirpath rest
end

/-- The ruler written under a directory header: one equals sign per
character of the header text, which is eleven characters plus the
directory path (line 265). -/
def rulerLine (dirpath : String) : String :=
  String.mk (List.replicate (dirpath.data.length + 11) '=')

/-- The text line written for one child entry (line 285). -/
def render_entry (e : EntryInfo) : String :=
  e.permissions ++ " " ++ e.owner ++ " " ++ e.name

/-- The text lines of one directory section: the header line, the
ruler, then one line per recorded entry. -/
def render_section (di : DirectoryInfo) : List String :=
  ("Directory: " ++ di.directory) :: rulerLine di.directory :: di.contents.map render_entry

/-- The logical text lines written by the tree reporter for a node. -/
def tree_walk_text (root_dir : String) (include_patterns ignore_patterns : List String)
    (dirpath : String) (t : FSNode) : List String :=
  List.flatten ((tree_walk root_dir include_patterns ignore_patterns dirpath t).map
    render_section)

/-- The logical text lines contributed by the descent into a child
list. -/
def tree_walk_list_text (root_dir : String) (include_patterns ignore_patterns : List String)
    (dirpath : String) (l : FSList) : List String :=
  List.flatten ((tree_walk_list root_dir include_patterns ignore_patterns dirpath l).map
    render_section)

example :
    tree_walk "/r" [] [".*"] "/r"
      (.dir "r" ⟨"drwx", "u"⟩
        (.cons (.file "a.py" ⟨"-rw-", "u"⟩ true "x=1")
          (.cons (.dir ".hidden" ⟨"drwx", "u"⟩ .nil) .nil)))
      = [⟨"/r", [⟨"a.py", "-rw-", "u", "file"⟩]⟩] := by decide

/-! Configuration handling in main (lines 305-407): API key
resolution, collection of the ignore and include pattern lists, and
the fatal configuration errors.  Command-line values carry the
argparse conventions: a flag not given is none, and a list option not
given is none while a given one holds its values.  The environment is
the triple of variables that the program reads, and the filesystem
read of the ignore file is a function from path to an optional
content, none modelling a raised exception. -/

/-- Severity of a log call. -/
inductive LogLevel where
  | debug
  | info
  | error
  | critical
deriving DecidableEq

/-- A fatal termination: the severity of the log call issued right
before sys.exit, together with the exit code. -/
structure FatalExit where
  level : LogLevel
  exitCode : Nat
deriving DecidableEq

/-- Result of a step of main that can end the process: either a value
or a fatal exit. -/
inductive ConfigResult (α : Type) where
  | ok (value : α)
  | fatal (e : FatalExit)
deriving DecidableEq

/-- Python truthiness of an optional list value. -/
def truthyList (o : Option (List String)) : Bool :=
  match o with
  | some (_ :: _) => true
  | _ => false

/-- Python or on optional strings: the left operand when truthy, else
the right one. -/
def pyOr (a b : Option String) : Option String :=
  if truthyStr a then a else b

/-- The parsed command line of the program. -/
structure Args where
  root_dir : String
  python : Bool
  tree : Bool
  description : Bool
  api : Option String
  d : Option String
  ignore_dirs : Option (List String)
  ignore_files : Option (List String)
  ignore_patterns : Option (List String)
  ignore_file : Option String
  include_dirs : Option (List String)
  include_files : Option (List String)
  include_patterns : Option (List String)

/-- Model of the API key determination (lines 332-349): the env chain
is OPENAI_API_KEY or API_KEY or api_key; with -description the -api
value wins when truthy, else a truthy env chain value is used, else
the program logs at critical severity and exits with code 1; without
-description the key is none. -/
def resolve_api_key (descriptionFlag : Bool) (argsApi envOpenai envUpper envLower : Option String) :
    ConfigResult (Option String) :=
  let env_api_key := pyOr (pyOr envOpenai envUpper) envLower
  if descriptionFlag then
    if truthyStr argsApi then .ok argsApi
    else if truthyStr env_api_key then .ok env_api_key
    else .fatal ⟨.critical, 1⟩
  else .ok none

/-- The default ignore patterns (line 357). -/
def default_ignore_patterns : List String := [".*", "__*__", "venv", "env", "__pycache__"]

/-- Python str.strip on the characters it treats as whitespace. -/
def pyStrip (s : String) : String :=
  let ws := fun c : Char => c == ' ' || c == '\t' || c == '\n' || c == '\r'
      || c == '\x0b' || c == '\x0c'
  String.mk (((s.data.dropWhile ws).reverse.dropWhile ws).reverse)

/-- Model of str.startswith. -/
def strStartsWith (s p : String) : Bool :=
  p.data.isPrefixOf s.data

/-- The patterns collected from an ignore file body (lines 373-377):
each line is stripped, and kept when nonempty and not starting with a
hash. -/
def ignore_file_lines (content : String) : List String :=
  ((splitChar '\n' content).map pyStrip).filter
    (fun l => !(l == "") && !(strStartsWith l "#"))

/-- The ignore pattern list built from the command line before the
ignore file is consulted (lines 357-369). -/
def base_ignore_patterns (args : Args) : List String :=
  default_ignore_patterns
    ++ (if truthyList args.ignore_patterns then args.ignore_patterns.getD [] else [])
    ++ (if truthyList args.ignore_dirs then args.ignore_dirs.getD [] else [])
    ++ (if truthyList args.ignore_files then args.ignore_files.getD [] else [])

/-- The include pattern list built from the command line (lines
382-392). -/
def base_include_patterns (args : Args) : List String :=
  (if truthyList args.include_patterns then args.include_patterns.getD [] else [])
    ++ (if truthyList args.include_dirs then args.include_dirs.getD [] else [])
    ++ (if truthyList args.include_files then args.include_files.getD [] else [])

/-- Model of the configuration phase of main: resolve the API key,
then build the ignore set, reading the ignore file when the option is
truthy (an unreadable file is logged at error severity and the program
exits with code 1), then build the include set.  The ok value is the
triple handed to the reporters; every scan happens only after an ok. -/
def main_config (args : Args) (envOpenai envUpper envLower : Option String)
    (readFile : String → Option String) :
    ConfigResult (Option String × List String × List String) :=
  match resolve_api_key args.description args.api envOpenai envUpper envLower with
  | .fatal e => .fatal e
  | .ok api_key =>
    let ignore0 := base_ignore_patterns args
    let withFile : ConfigResult (List String) :=
      if truthyStr args.ignore_file then
        match readFile (args.ignore_file.getD "") with
        | none => .fatal (⟨.error, 1⟩ : FatalExit)
        | some content => .ok (ignore0 ++ ignore_file_lines content)
      else .ok ignore0
    match withFile with
    | .fatal e => .fatal e
    | .ok ignore_patterns => .ok (api_key, base_include_patterns args, ignore_patterns)

/-! Specification-side definitions, following the wording of the
claims rather than the source, for the refinement statements. -/

/-- A file that the content reporter round-trip claim counts: readable,
passing the pattern matcher under its joined path, and carrying the
designated source suffix. -/
def isCountedPy (root_dir : String) (include_patterns ignore_patterns : List String)
    (dirpath : String) : FSNode → Bool
  | .file nm _ readable _ =>
      readable && should_process (pjoin dirpath nm) root_dir include_patterns ignore_patterns
        && strEndsWith nm ".py"
  | .dir _ _ _ => false

mutual
/-- Number of readable files with the source suffix that pass the
matcher, within the non-pruned directories below a node, following the
wording of the round-trip claim. -/
def matched_py_count (root_dir : String) (include_patterns ignore_patterns : List String)
    (dirpath : String) : FSNode → Nat
  | .file _ _ _ _ => 0
  | .dir _ _ children =>
      (children.toList.countP
        (fun c => isCountedPy root_dir include_patterns ignore_patterns dirpath c))
      + matched_py_count_list root_dir include_patterns ignore_patterns dirpath children

/-- The same count summed over the child directories that are not
pruned. -/
def matched_py_count_list (root_dir : String) (include_patterns ignore_patterns : List String)
    (dirpath : String) : FSList → Nat
  | .nil => 0
  | .cons c rest =>
      (match c with
        | .dir d _ _ =>
            if should_process (pjoin dirpath d) root_dir include_patterns ignore_patterns then
              matched_py_count root_dir include_patterns ignore_patterns (pjoin dirpath d) c
            else 0
        | .file _ _ _ _ => 0)
      + matched_py_count_list root_dir include_patterns ignore_patterns dirpath rest
end

/-- The entry list that the tree section claim predicts: one entry per
passing child, directories and files interleaved in enumeration
order. -/
def interleavedEntries (root_dir : String) (include_patterns ignore_patterns : List String)
    (dirpath : String) (children : List FSNode) : List EntryInfo :=
  children.filterMap (fun c =>
    if passes_sp root_dir include_patterns ignore_patterns dirpath c then some (mkEntry c)
    else none)

/-- The description-independent part of a file record. -/
def entrySig (e : FileEntry) : String × String × String :=
  (e.filename, e.filepath, e.content)

/-! Helper lemmas. -/

/-- The common prefix of a list with itself is the whole list. -/
theorem commonPrefixLen_self : ∀ l : List String, commonPrefixLen l l = l.length := by
  intro l
  induction l with
  | nil => rfl
  | cons a t ih => simp [commonPrefixLen, ih]

/-- The relative path of a path with respect to itself is a dot. -/
theorem relpath_self (p : String) : relpath p p = "." := by
  simp [relpath, commonPrefixLen_self, Nat.sub_self, List.drop_length]

/-- List.any is invariant under permutation. -/
theorem perm_any_eq {α : Type} {l1 l2 : List α} (h : l1.Perm l2) (f : α → Bool) :
    l1.any f = l2.any f := by
  induction h with
  | nil => rfl
  | cons x _ ih => simp [ih]
  | swap x y l => cases hx : f x <;> cases hy : f y <;> simp [List.any_cons, hx, hy]
  | trans _ _ ih1 ih2 => exact ih1.trans ih2

/-- List.isEmpty is invariant under permutation. -/
theorem perm_isEmpty_eq {α : Type} {l1 l2 : List α} (h : l1.Perm l2) :
    l1.isEmpty = l2.isEmpty := by
  have hl := h.length_eq
  cases l1 <;> cases l2 <;> simp_all

/-! Claim theorems. -/

/-- C1: for every path whose relative path is not the scan root dot,
if the ignore set glob-matches the relative path or the base name,
should_process returns false, for every include set; ignore always
overrides include. -/
theorem C1_ignore_overrides_include :
    ∀ (path root_dir : String) (include_patterns ignore_patterns : List String),
    relpath path root_dir ≠ "." →
    (ignore_patterns.any fun pat =>
      fnmatch (relpath path root_dir) pat || fnmatch (basename path) pat) = true →
    should_process path root_dir include_patterns ignore_patterns = false := by
  intro path root_dir inc ign h1 h2
  simp only [should_process]
  rw [if_neg h1]
  split
  · rfl
  · simp [h2]

/-- Witness for C1 at a concrete input: the path matches both the
universal include pattern and the ignore pattern, and is rejected. -/
theorem C1_witness :
    relpath "/r/build" "/r" ≠ "." ∧
    (["build"].any fun pat =>
      fnmatch (relpath "/r/build" "/r") pat || fnmatch (basename "/r/build") pat) = true ∧
    should_process "/r/build" "/r" ["*"] ["build"] = false :=
  ⟨by decide, by decide,
    C1_ignore_overrides_include "/r/build" "/r" ["*"] ["build"] (by decide) (by decide)⟩

/-- C3: the scan root itself always passes should_process, for every
include set and every ignore set, including an empty include set and
the universal ignore pattern. -/
theorem C3_root_always_passes :
    ∀ (root_dir : String) (include_patterns ignore_patterns : List String),
    should_process root_dir root_dir include_patterns ignore_patterns = true := by
  intro root_dir inc ign
  simp [should_process, relpath_self]

/-- C10: should_process is invariant under any permutation of the
include pattern list and any permutation of the ignore pattern list. -/
theorem C10_pattern_order_irrelevant :
    ∀ (path root_dir : String) (inc1 inc2 ign1 ign2 : List String),
    inc1.Perm inc2 → ign1.Perm ign2 →
    should_process path root_dir inc1 ign1 = should_process path root_dir inc2 ign2 := by
  intro path root_dir inc1 inc2 ign1 ign2 hi hg
  simp only [should_process]
  rw [perm_any_eq hi, perm_any_eq hg, perm_isEmpty_eq hi]

/-- Witness for C10 at concrete permuted pattern lists. -/
theorem C10_witness :
    (["*.md", "x*"].Perm ["x*", "*.md"]) ∧ (["u", "v"].Perm ["v", "u"]) ∧
    should_process "/r/a" "/r" ["*.md", "x*"] ["u", "v"]
      = should_process "/r/a" "/r" ["x*", "*.md"] ["v", "u"] :=
  ⟨List.Perm.swap "x*" "*.md" [], List.Perm.swap "v" "u" [],
    C10_pattern_order_irrelevant "/r/a" "/r" ["*.md", "x*"] ["x*", "*.md"] ["u", "v"] ["v", "u"]
      (List.Perm.swap "x*" "*.md" []) (List.Perm.swap "v" "u" [])⟩

/-- C7: with description mode requested, the resolved API key is the
-api value whenever that flag yields a key, else the first environment
variable of the fixed preference order OPENAI_API_KEY, API_KEY,
api_key that yields one; when none yields a key the program exits
fatally with code 1 at critical severity, and main never reaches the
configuration triple that the scanning phase consumes. -/
theorem C7_api_key_resolution :
    ∀ (a o1 o2 o3 : Option String),
    (resolve_api_key true a o1 o2 o3 =
      (if truthyStr a then .ok a
       else if truthyStr o1 then .ok o1
       else if truthyStr o2 then .ok o2
       else if truthyStr o3 then .ok o3
       else .fatal ⟨.critical, 1⟩))
    ∧ (FatalExit.exitCode ⟨.critical, 1⟩ ≠ 0)
    ∧ (∀ (args : Args) (readFile : String → Option String),
        args.description = true → args.api = a →
        resolve_api_key true a o1 o2 o3 = .fatal ⟨.critical, 1⟩ →
        main_config args o1 o2 o3 readFile = .fatal ⟨.critical, 1⟩) := by
  intro a o1 o2 o3
  refine ⟨?_, by decide, ?_⟩
  · cases ha : truthyStr a <;> cases h1 : truthyStr o1 <;> cases h2 : truthyStr o2
      <;> cases h3 : truthyStr o3
      <;> simp [resolve_api_key, pyOr, ha, h1, h2, h3]
  · intro args readFile hd hapi hfatal
    simp only [main_config, hd, hapi, hfatal]

/-- Witness for C7: with no -api value and an empty environment, the
configuration phase is the fatal critical exit and no reporter input
is produced. -/
theorem C7_witness :
    main_config ⟨"/r", true, false, true, none, none, none, none, none, none, none, none, none⟩
      none none none (fun _ => some "") = .fatal ⟨.critical, 1⟩ :=
  (C7_api_key_resolution none none none none).2.2
    ⟨"/r", true, false, true, none, none, none, none, none, none, none, none, none⟩
    (fun _ => some "") rfl rfl (by decide)

/-- C8 counterexample: with an unreadable ignore file the program does
abort with exit code 1, but the configuration error is logged at error
severity, not at critical severity as the claim states. -/
theorem C8_counterexample :
    main_config ⟨"/r", true, false, false, none, none, none, none, none, some ".ignore",
        none, none, none⟩
      none none none (fun _ => none) = .fatal ⟨.error, 1⟩
    ∧ LogLevel.error ≠ LogLevel.critical := by decide

/-- C8 amended: each stripped nonblank line of the ignore file that
does not start with a hash is appended to the ignore set, blank and
comment lines are never patterns, and an unreadable ignore file aborts
the run with a non-zero exit, logged at error severity. -/
theorem C8_ignore_file_merging :
    ∀ (args : Args) (o1 o2 o3 : Option String) (readFile : String → Option String),
    args.description = false →
    truthyStr args.ignore_file = true →
    (∀ content, readFile (args.ignore_file.getD "") = some content →
      main_config args o1 o2 o3 readFile =
        .ok (none, base_include_patterns args,
          base_ignore_patterns args ++ ignore_file_lines content)
      ∧ ∀ l ∈ ignore_file_lines content, ¬(l = "") ∧ strStartsWith l "#" = false)
    ∧ (readFile (args.ignore_file.getD "") = none →
      main_config args o1 o2 o3 readFile = .fatal ⟨.error, 1⟩
      ∧ FatalExit.exitCode ⟨.error, 1⟩ ≠ 0) := by
  intro args o1 o2 o3 readFile hd hig
  constructor
  · intro content hrf
    constructor
    · simp [main_config, resolve_api_key, hd, hig, hrf]
    · intro l hl
      have hmem := List.of_mem_filter hl
      rw [Bool.and_eq_true] at hmem
      obtain ⟨h1, h2⟩ := hmem
      refine ⟨?_, ?_⟩
      · intro hcl
        rw [hcl] at h1
        simp at h1
      · simpa using h2
  · intro hrf
    refine ⟨?_, by decide⟩
    simp [main_config, resolve_api_key, hd, hig, hrf]

/-- Witness for C8 amended: a concrete ignore file body with a pattern
line, a comment line, a blank line and a second pattern line merges
exactly the two pattern lines after the command-line ignore set. -/
theorem C8_witness :
    truthyStr (some ".ignore") = true ∧
    main_config ⟨"/r", true, false, false, none, none, none, none, none, some ".ignore",
        none, none, none⟩
      none none none (fun _ => some "tmp\n# comment\n\nlogs\n") =
      .ok (none,
        base_include_patterns ⟨"/r", true, false, false, none, none, none, none, none,
          some ".ignore", none, none, none⟩,
        base_ignore_patterns ⟨"/r", true, false, false, none, none, none, none, none,
          some ".ignore", none, none, none⟩ ++ ignore_file_lines "tmp\n# comment\n\nlogs\n") :=
  ⟨by decide,
    ((C8_ignore_file_merging
      ⟨"/r", true, false, false, none, none, none, none, none, some ".ignore", none, none, none⟩
      none none none (fun _ => some "tmp\n# comment\n\nlogs\n") rfl (by decide)).1
      "tmp\n# comment\n\nlogs\n" rfl).1⟩

/-! Helper lemmas about lists and the walk. -/

/-- toList distributes over FSList.append. -/
theorem FSList.toList_append : ∀ u v : FSList, (u.append v).toList = u.toList ++ v.toList
  | .nil, _ => rfl
  | .cons h t, v => by simp [FSList.append, FSList.toList, FSList.toList_append t v]

/-- filterMap of a guarded some is a map over a filter. -/
theorem filterMap_guard_eq {α β : Type} (p : α → Bool) (f : α → β) :
    ∀ l : List α,
    (l.filterMap fun c => if p c then some (f c) else none) = (l.filter p).map f := by
  intro l
  induction l with
  | nil => rfl
  | cons a t ih =>
    by_cases h : p a = true <;> simp [List.filterMap_cons, List.filter_cons, h, ih]

/-- Two stacked filters collapse to one conjunctive filter. -/
theorem filter_filter_and {α : Type} (p q : α → Bool) :
    ∀ l : List α, (l.filter q).filter p = l.filter fun c => q c && p c := by
  intro l
  induction l with
  | nil => rfl
  | cons a t ih =>
    by_cases hq : q a = true <;> by_cases hp : p a = true <;>
      simp [List.filter_cons, hq, hp, ih]

/-- The length of a filterMap counts the elements mapped to some. -/
theorem length_filterMap_eq_countP {α β : Type} (f : α → Option β) :
    ∀ l : List α, (l.filterMap f).length = l.countP fun c => (f c).isSome := by
  intro l
  induction l with
  | nil => rfl
  | cons a t ih =>
    cases hf : f a <;> simp [List.filterMap_cons, List.countP_cons, hf, ih]

/-- The scan root always passes should_process. -/
theorem should_process_self (root_dir : String) (inc ign : List String) :
    should_process root_dir root_dir inc ign = true := by
  simp [should_process, relpath_self]

/-- The filename loop keeps an entry exactly when the round-trip claim
counts it. -/
theorem fileEntryFor_isSome (root_dir : String) (inc ign : List String) (api : Option String)
    (net : String → ApiResponse) (dp : String) (c : FSNode) :
    (fileEntryFor root_dir inc ign api net dp c).isSome = isCountedPy root_dir inc ign dp c := by
  cases c with
  | dir n m ch => rfl
  | file nm m rd ct =>
    cases hsp : should_process (pjoin dp nm) root_dir inc ign <;>
      cases hsuf : strEndsWith nm ".py" <;> cases rd <;>
      simp [fileEntryFor, isCountedPy, hsp, hsuf]

mutual
/-- The walk below a visited directory produces exactly as many
records as the round-trip claim counts below it. -/
theorem process_walk_length (root_dir : String) (inc ign : List String) (api : Option String)
    (net : String → ApiResponse) :
    ∀ (dp : String) (t : FSNode), should_process dp root_dir inc ign = true →
    (process_walk root_dir inc ign api net dp t).length
      = matched_py_count root_dir inc ign dp t
  | _, .file _ _ _ _, _ => by simp [process_walk, matched_py_count]
  | dp, .dir nm m children, h => by
      have hfun : (fun c => (fileEntryFor root_dir inc ign api net dp c).isSome)
          = fun c => isCountedPy root_dir inc ign dp c :=
        funext (fun c => fileEntryFor_isSome root_dir inc ign api net dp c)
      simp [process_walk, matched_py_count, h, processFileEntries,
        length_filterMap_eq_countP, hfun,
        process_walk_list_length root_dir inc ign api net dp children]

/-- The walk of the child list produces exactly as many records as the
round-trip claim counts over it. -/
theorem process_walk_list_length (root_dir : String) (inc ign : List String)
    (api : Option String) (net : String → ApiResponse) :
    ∀ (dp : String) (l : FSList),
    (process_walk_list root_dir inc ign api net dp l).length
      = matched_py_count_list root_dir inc ign dp l
  | _, .nil => by simp [process_walk_list, matched_py_count_list]
  | dp, .cons (.file nm m rd ct) rest => by
      simp [process_walk_list, matched_py_count_list,
        process_walk_list_length root_dir inc ign api net dp rest]
  | dp, .cons (.dir d m ch) rest => by
      cases hsp : should_process (pjoin dp d) root_dir inc ign with
      | true =>
        have ihc := process_walk_length root_dir inc ign api net (pjoin dp d) (.dir d m ch) hsp
        simp [process_walk_list, matched_py_count_list, hsp, ihc,
          process_walk_list_length root_dir inc ign api net dp rest]
      | false =>
        simp [process_walk_list, matched_py_count_list, hsp,
          process_walk_list_length root_dir inc ign api net dp rest]
end

/-- C6: the record count of the content reporter JSON output over a
scan rooted at the root equals the number of readable files, within
non-pruned directories, that pass the pattern matcher and carry the
.py suffix. -/
theorem C6_record_count :
    ∀ (root_dir : String) (inc ign : List String) (api : Option String)
      (net : String → ApiResponse) (t : FSNode),
    (process_walk root_dir inc ign api net root_dir t).length
      = matched_py_count root_dir inc ign root_dir t :=
  fun root_dir inc ign api net t =>
    process_walk_length root_dir inc ign api net root_dir t
      (should_process_self root_dir inc ign)

/-- Any record kept by the filename loop has the description field
that the branch on the api key dictates, applied to its own content. -/
theorem fileEntryFor_desc (root_dir : String) (inc ign : List String) (api : Option String)
    (net : String → ApiResponse) (dp : String) :
    ∀ (c : FSNode) (e : FileEntry),
    fileEntryFor root_dir inc ign api net dp c = some e →
    e.description = if truthyStr api = true then
      some (handled_description (net e.content)).fst else none := by
  intro c e h
  cases c with
  | dir n m ch => simp [fileEntryFor] at h
  | file nm m rd ct =>
    cases hsp : should_process (pjoin dp nm) root_dir inc ign <;>
      cases hsuf : strEndsWith nm ".py" <;> cases rd <;> cases hk : truthyStr api <;>
      simp [fileEntryFor, hsp, hsuf, hk] at h <;>
      simp [← h, hk]

mutual
/-- Every record of the walk has the description dictated by the api
key branch applied to its own content. -/
theorem process_walk_desc (root_dir : String) (inc ign : List String) (api : Option String)
    (net : String → ApiResponse) :
    ∀ (dp : String) (t : FSNode) (e : FileEntry),
    e ∈ process_walk root_dir inc ign api net dp t →
    e.description = if truthyStr api = true then
      some (handled_description (net e.content)).fst else none
  | dp, .file nm m rd ct, e => by
      intro h
      simp [process_walk] at h
  | dp, .dir nm m children, e => by
      intro h
      simp only [process_walk] at h
      rcases List.mem_append.mp h with h1 | h2
      · by_cases hsp : should_process dp root_dir inc ign = true
        · rw [if_pos hsp] at h1
          obtain ⟨c, _, hce⟩ := List.mem_filterMap.mp h1
          exact fileEntryFor_desc root_dir inc ign api net dp c e hce
        · rw [if_neg hsp] at h1
          simp at h1
      · exact process_walk_list_desc root_dir inc ign api net dp children e h2

/-- Every record of the child-list walk has the dictated description. -/
theorem process_walk_list_desc (root_dir : String) (inc ign : List String)
    (api : Option String) (net : String → ApiResponse) :
    ∀ (dp : String) (l : FSList) (e : FileEntry),
    e ∈ process_walk_list root_dir inc ign api net dp l →
    e.description = if truthyStr api = true then
      some (handled_description (net e.content)).fst else none
  | dp, .nil, e => by
      intro h
      simp [process_walk_list] at h
  | dp, .cons (.file nm m rd ct) rest, e => by
      intro h
      simp only [process_walk_list] at h
      exact process_walk_list_desc root_dir inc ign api net dp rest e (by simpa using h)
  | dp, .cons (.dir d m ch) rest, e => by
      intro h
      simp only [process_walk_list] at h
      rcases List.mem_append.mp h with h1 | h2
      · by_cases hsp : should_process (pjoin dp d) root_dir inc ign = true
        · rw [if_pos hsp] at h1
          exact process_walk_desc root_dir inc ign api net (pjoin dp d) (.dir d m ch) e h1
        · rw [if_neg hsp] at h1
          simp at h1
      · exact process_walk_list_desc root_dir inc ign api net dp rest e h2
end

/-- The description-independent record data kept by the filename loop
does not depend on the network outcome. -/
theorem fileEntryFor_sig (root_dir : String) (inc ign : List String) (api : Option String)
    (net net2 : String → ApiResponse) (dp : String) (c : FSNode) :
    (fileEntryFor root_dir inc ign api net dp c).map entrySig
      = (fileEntryFor root_dir inc ign api net2 dp c).map entrySig := by
  cases c with
  | dir n m ch => rfl
  | file nm m rd ct =>
    cases hsp : should_process (pjoin dp nm) root_dir inc ign <;>
      cases hsuf : strEndsWith nm ".py" <;> cases rd <;> cases hk : truthyStr api <;>
      simp [fileEntryFor, entrySig, hsp, hsuf, hk]

/-- filterMap respects a pointwise equality of the mapped images. -/
theorem filterMap_map_congr {α β γ : Type} (f g : α → Option β) (m : β → γ)
    (h : ∀ a, (f a).map m = (g a).map m) :
    ∀ l : List α, (l.filterMap f).map m = (l.filterMap g).map m := by
  intro l
  induction l with
  | nil => rfl
  | cons a t ih =>
    have ha := h a
    cases hf : f a <;> cases hg : g a <;> rw [hf, hg] at ha
    · simp only [List.filterMap_cons, hf, hg]
      exact ih
    · simp at ha
    · simp at ha
    · simp only [Option.map_some'] at ha
      simp [List.filterMap_cons, hf, hg, Option.some_inj.mp ha, ih]

mutual
/-- The description-independent part of the walk output does not
depend on the network outcome. -/
theorem process_walk_sig (root_dir : String) (inc ign : List String) (api : Option String)
    (net net2 : String → ApiResponse) :
    ∀ (dp : String) (t : FSNode),
    (process_walk root_dir inc ign api net dp t).map entrySig
      = (process_walk root_dir inc ign api net2 dp t).map entrySig
  | dp, .file nm m rd ct => by simp [process_walk]
  | dp, .dir nm m children => by
      have hpfe := filterMap_map_congr
        (fileEntryFor root_dir inc ign api net dp)
        (fileEntryFor root_dir inc ign api net2 dp) entrySig
        (fun c => fileEntryFor_sig root_dir inc ign api net net2 dp c) children.toList
      by_cases hsp : should_process dp root_dir inc ign = true <;>
        simp [process_walk, hsp, processFileEntries, hpfe,
          process_walk_list_sig root_dir inc ign api net net2 dp children]

/-- The description-independent part of the child-list walk output
does not depend on the network outcome. -/
theorem process_walk_list_sig (root_dir : String) (inc ign : List String)
    (api : Option String) (net net2 : String → ApiResponse) :
    ∀ (dp : String) (l : FSList),
    (process_walk_list root_dir inc ign api net dp l).map entrySig
      = (process_walk_list root_dir inc ign api net2 dp l).map entrySig
  | dp, .nil => by simp [process_walk_list]
  | dp, .cons (.file nm m rd ct) rest => by
      simp only [process_walk_list]
      simpa using process_walk_list_sig root_dir inc ign api net net2 dp rest
  | dp, .cons (.dir d m ch) rest => by
      by_cases hsp : should_process (pjoin dp d) root_dir inc ign = true <;>
        simp [process_walk_list, hsp,
          process_walk_sig root_dir inc ign api net net2 (pjoin dp d) (.dir d m ch),
          process_walk_list_sig root_dir inc ign api net net2 dp rest]
end

/-- On any outcome that is not the uncaught one, get_file_description
returns normally with the handled_description pair. -/
theorem gfd_of_not_uncaught (resp : ApiResponse) (h : isUncaughtError resp = false) :
    get_file_description resp = some (handled_description resp) := by
  cases resp <;> first
    | rfl
    | simp [isUncaughtError] at h

/-- When no request outcome is uncaught, the crash-aware loop
iteration agrees with the crash-free one. -/
theorem fileEntryRun_eq_handled (root_dir : String) (inc ign : List String)
    (api : Option String) (net : String → ApiResponse) (dp : String)
    (hnet : ∀ s, isUncaughtError (net s) = false) :
    ∀ c : FSNode,
    fileEntryRun root_dir inc ign api net dp c
      = some (fileEntryFor root_dir inc ign api net dp c) := by
  intro c
  cases c with
  | dir n m ch => rfl
  | file nm m rd ct =>
    have hgfd := gfd_of_not_uncaught (net ct) (hnet ct)
    cases hsp : should_process (pjoin dp nm) root_dir inc ign <;>
      cases hsuf : strEndsWith nm ".py" <;> cases rd <;> cases hk : truthyStr api <;>
      simp [fileEntryRun, fileEntryFor, hsp, hsuf, hk, hgfd]

/-- When no request outcome is uncaught, the crash-aware filename loop
completes with exactly the crash-free records. -/
theorem fileEntriesRun_eq_handled (root_dir : String) (inc ign : List String)
    (api : Option String) (net : String → ApiResponse) (dp : String)
    (hnet : ∀ s, isUncaughtError (net s) = false) :
    ∀ l : List FSNode,
    fileEntriesRun root_dir inc ign api net dp l
      = some (processFileEntries root_dir inc ign api net dp l) := by
  intro l
  induction l with
  | nil => rfl
  | cons c rest ih =>
    have hc := fileEntryRun_eq_handled root_dir inc ign api net dp hnet c
    cases hfc : fileEntryFor root_dir inc ign api net dp c <;> rw [hfc] at hc <;>
      simp [fileEntriesRun, processFileEntries, List.filterMap_cons, hc, hfc, ih]

mutual
/-- When no request outcome is uncaught, the crash-aware run completes
and returns exactly the crash-free walk records. -/
theorem process_run_eq_handled (root_dir : String) (inc ign : List String)
    (api : Option String) (net : String → ApiResponse)
    (hnet : ∀ s, isUncaughtError (net s) = false) :
    ∀ (dp : String) (t : FSNode),
    process_run root_dir inc ign api net dp t
      = some (process_walk root_dir inc ign api net dp t)
  | dp, .file nm m rd ct => by simp [process_run, process_walk]
  | dp, .dir nm m children => by
      have hf := fileEntriesRun_eq_handled root_dir inc ign api net dp hnet children.toList
      by_cases hsp : should_process dp root_dir inc ign = true <;>
        simp [process_run, process_walk, hsp, hf,
          process_run_list_eq_handled root_dir inc ign api net hnet dp children]

/-- When no request outcome is uncaught, the crash-aware descent
completes and returns exactly the crash-free descent records. -/
theorem process_run_list_eq_handled (root_dir : String) (inc ign : List String)
    (api : Option String) (net : String → ApiResponse)
    (hnet : ∀ s, isUncaughtError (net s) = false) :
    ∀ (dp : String) (l : FSList),
    process_run_list root_dir inc ign api net dp l
      = some (process_walk_list root_dir inc ign api net dp l)
  | dp, .nil => by simp [process_run_list, process_walk_list]
  | dp, .cons (.file nm m rd ct) rest => by
      simp [process_run_list, process_walk_list,
        process_run_list_eq_handled root_dir inc ign api net hnet dp rest]
  | dp, .cons (.dir d m ch) rest => by
      by_cases hsp : should_process (pjoin dp d) root_dir inc ign = true <;>
        simp [process_run_list, process_walk_list, hsp,
          process_run_eq_handled root_dir inc ign api net hnet (pjoin dp d) (.dir d m ch),
          process_run_list_eq_handled root_dir inc ign api net hnet dp rest]
end

/-- With a truthy key, an iteration that yields a record without
killing the run saw a non-uncaught outcome on the record content. -/
theorem fileEntryRun_isSome_no_uncaught (root_dir : String) (inc ign : List String)
    (api : Option String) (net : String → ApiResponse) (dp : String)
    (hk : truthyStr api = true) :
    ∀ (c : FSNode) (e : FileEntry),
    fileEntryFor root_dir inc ign api net dp c = some e →
    (fileEntryRun root_dir inc ign api net dp c).isSome = true →
    isUncaughtError (net e.content) = false := by
  intro c e hfe hrun
  cases c with
  | dir n m ch => simp [fileEntryFor] at hfe
  | file nm m rd ct =>
    cases hsp : should_process (pjoin dp nm) root_dir inc ign <;>
      cases hsuf : strEndsWith nm ".py" <;> cases rd <;>
      simp [fileEntryFor, hsp, hsuf, hk] at hfe
    subst hfe
    cases hresp : net ct <;>
      simp [fileEntryRun, hsp, hsuf, hk, hresp, get_file_description, isUncaughtError] at hrun ⊢

/-- With a truthy key, a filename loop that completes saw a
non-uncaught outcome on the content of every record it appended. -/
theorem fileEntriesRun_isSome_no_uncaught (root_dir : String) (inc ign : List String)
    (api : Option String) (net : String → ApiResponse) (dp : String)
    (hk : truthyStr api = true) :
    ∀ l : List FSNode, (fileEntriesRun root_dir inc ign api net dp l).isSome = true →
    ∀ e ∈ processFileEntries root_dir inc ign api net dp l,
    isUncaughtError (net e.content) = false := by
  intro l
  induction l with
  | nil =>
    intro _ e he
    simp [processFileEntries] at he
  | cons c rest ih =>
    intro hrun e he
    have hpair : (fileEntryRun root_dir inc ign api net dp c).isSome = true
        ∧ (fileEntriesRun root_dir inc ign api net dp rest).isSome = true := by
      cases hcr : fileEntryRun root_dir inc ign api net dp c with
      | none =>
        exfalso
        simp [fileEntriesRun, hcr] at hrun
      | some o =>
        cases o with
        | none =>
          refine ⟨by simp [hcr], ?_⟩
          simpa [fileEntriesRun, hcr] using hrun
        | some x =>
          refine ⟨by simp [hcr], ?_⟩
          simpa [fileEntriesRun, hcr] using hrun
    obtain ⟨hc1, hrest⟩ := hpair
    cases hfc : fileEntryFor root_dir inc ign api net dp c with
    | none =>
      simp only [processFileEntries, List.filterMap_cons, hfc] at he
      exact ih hrest e he
    | some e0 =>
      simp only [processFileEntries, List.filterMap_cons, hfc] at he
      rcases List.mem_cons.mp he with rfl | hmem
      · exact fileEntryRun_isSome_no_uncaught root_dir inc ign api net dp hk c e hfc hc1
      · exact ih hrest e hmem

mutual
/-- With a truthy key, a run that completes saw a non-uncaught outcome
on the content of every record of the crash-free walk. -/
theorem process_run_isSome_no_uncaught (root_dir : String) (inc ign : List String)
    (api : Option String) (net : String → ApiResponse) (hk : truthyStr api = true) :
    ∀ (dp : String) (t : FSNode),
    (process_run root_dir inc ign api net dp t).isSome = true →
    ∀ e ∈ process_walk root_dir inc ign api net dp t,
    isUncaughtError (net e.content) = false
  | dp, .file nm m rd ct => by
      intro _ e he
      simp [process_walk] at he
  | dp, .dir nm m children => by
      intro hrun e he
      by_cases hsp : should_process dp root_dir inc ign = true
      · have hpair : (fileEntriesRun root_dir inc ign api net dp children.toList).isSome = true
            ∧ (process_run_list root_dir inc ign api net dp children).isSome = true := by
          cases hfr : fileEntriesRun root_dir inc ign api net dp children.toList with
          | none =>
            exfalso
            simp [process_run, hsp, hfr] at hrun
          | some h0 =>
            refine ⟨by simp [hfr], ?_⟩
            simpa [process_run, hsp, hfr] using hrun
        obtain ⟨h1, h2⟩ := hpair
        simp only [process_walk] at he
        rcases List.mem_append.mp he with hl | hr
        · rw [if_pos hsp] at hl
          exact fileEntriesRun_isSome_no_uncaught root_dir inc ign api net dp hk
            children.toList h1 e hl
        · exact process_run_list_isSome_no_uncaught root_dir inc ign api net hk dp children
            h2 e hr
      · have h2 : (process_run_list root_dir inc ign api net dp children).isSome = true := by
          simpa [process_run, hsp] using hrun
        simp only [process_walk] at he
        rcases List.mem_append.mp he with hl | hr
        · rw [if_neg hsp] at hl
          simp at hl
        · exact process_run_list_isSome_no_uncaught root_dir inc ign api net hk dp children
            h2 e hr

/-- With a truthy key, a descent that completes saw a non-uncaught
outcome on the content of every record of the crash-free descent. -/
theorem process_run_list_isSome_no_uncaught (root_dir : String) (inc ign : List String)
    (api : Option String) (net : String → ApiResponse) (hk : truthyStr api = true) :
    ∀ (dp : String) (l : FSList),
    (process_run_list root_dir inc ign api net dp l).isSome = true →
    ∀ e ∈ process_walk_list root_dir inc ign api net dp l,
    isUncaughtError (net e.content) = false
  | dp, .nil => by
      intro _ e he
      simp [process_walk_list] at he
  | dp, .cons (.file nm m rd ct) rest => by
      intro hrun e he
      have h2 : (process_run_list root_dir inc ign api net dp rest).isSome = true := by
        simpa [process_run_list] using hrun
      simp only [process_walk_list] at he
      exact process_run_list_isSome_no_uncaught root_dir inc ign api net hk dp rest h2 e
        (by simpa using he)
  | dp, .cons (.dir d m ch) rest => by
      intro hrun e he
      by_cases hsp : should_process (pjoin dp d) root_dir inc ign = true
      · have hpair : (process_run root_dir inc ign api net (pjoin dp d)
              (.dir d m ch)).isSome = true
            ∧ (process_run_list root_dir inc ign api net dp rest).isSome = true := by
          cases hpr : process_run root_dir inc ign api net (pjoin dp d) (.dir d m ch) with
          | none =>
            exfalso
            simp [process_run_list, hsp, hpr] at hrun
          | some h0 =>
            refine ⟨by simp [hpr], ?_⟩
            simpa [process_run_list, hsp, hpr] using hrun
        obtain ⟨h1, h2⟩ := hpair
        simp only [process_walk_list] at he
        rcases List.mem_append.mp he with hl | hr
        · rw [if_pos hsp] at hl
          exact process_run_isSome_no_uncaught root_dir inc ign api net hk (pjoin dp d)
            (.dir d m ch) h1 e hl
        · exact process_run_list_isSome_no_uncaught root_dir inc ign api net hk dp rest
            h2 e hr
      · have h2 : (process_run_list root_dir inc ign api net dp rest).isSome = true := by
          simpa [process_run_list, hsp] using hrun
        simp only [process_walk_list] at he
        rcases List.mem_append.mp he with hl | hr
        · rw [if_neg hsp] at hl
          simp at hl
        · exact process_run_list_isSome_no_uncaught root_dir inc ign api net hk dp rest
            h2 e hr
end

/-- C5 counterexample: a malformed response whose field access raises
an uncaught exception aborts the whole run: the crash-aware model of
the content reporter yields no record list at all, in particular not
the fallback record the claim predicts, so the failure is fatal. -/
theorem C5_counterexample :
    process_run "/r" [] [] (some "key") (fun _ => ApiResponse.uncaughtError) "/r"
      (.dir "r" ⟨"drwx", "u"⟩ (.cons (.file "a.py" ⟨"-rw-", "u"⟩ true "x=1") .nil)) = none
    ∧ (none : Option (List FileEntry))
        ≠ some [⟨"a.py", "/r/a.py", some fallbackDescription, "x=1"⟩] := by
  decide

/-- C5 amended: with a configured key, every record whose request
fails in a handled way carries the fixed fallback description; a run
all of whose request outcomes are handled completes with exactly the
walk records, so those failures are never fatal; the processed file
names, paths and contents do not depend on the request outcomes; but a
request whose malformed response raises an uncaught exception on a
processed file aborts the whole run, which then produces no record
list. -/
theorem C5_handled_failure_nonfatal :
    ∀ (root_dir : String) (inc ign : List String) (api : Option String)
      (net net2 : String → ApiResponse) (dp : String) (t : FSNode),
    truthyStr api = true →
    (∀ e ∈ process_walk root_dir inc ign api net dp t,
      isHandledFailure (net e.content) = true → e.description = some fallbackDescription)
    ∧ ((∀ s, isUncaughtError (net s) = false) →
      process_run root_dir inc ign api net dp t
        = some (process_walk root_dir inc ign api net dp t))
    ∧ (process_walk root_dir inc ign api net dp t).map entrySig
        = (process_walk root_dir inc ign api net2 dp t).map entrySig
    ∧ (∀ e ∈ process_walk root_dir inc ign api net dp t,
      isUncaughtError (net e.content) = true →
      process_run root_dir inc ign api net dp t = none) := by
  intro root_dir inc ign api net net2 dp t hk
  refine ⟨?_, ?_, ?_, ?_⟩
  · intro e he hfail
    have hd := process_walk_desc root_dir inc ign api net dp t e he
    rw [hd, if_pos hk]
    cases hnet : net e.content <;> rw [hnet] at hfail <;>
      simp [isHandledFailure] at hfail <;>
      simp [handled_description, get_file_description]
  · intro hnet
    exact process_run_eq_handled root_dir inc ign api net hnet dp t
  · exact process_walk_sig root_dir inc ign api net net2 dp t
  · intro e he hu
    cases hpr : process_run root_dir inc ign api net dp t with
    | none => rfl
    | some l =>
      have hfalse := process_run_isSome_no_uncaught root_dir inc ign api net hk dp t
        (by simp [hpr]) e he
      rw [hu] at hfalse
      simp at hfalse

/-- Witness for C5 amended: on a one-file tree, a timing-out request
leaves the run alive with the fallback record, and an uncaught
malformed response aborts it. -/
theorem C5_amended_witness :
    truthyStr (some "key") = true
    ∧ process_run "/r" [] [] (some "key") (fun _ => .timeoutError) "/r"
        (.dir "r" ⟨"drwx", "u"⟩ (.cons (.file "a.py" ⟨"-rw-", "u"⟩ true "x=1") .nil))
      = some (process_walk "/r" [] [] (some "key") (fun _ => .timeoutError) "/r"
        (.dir "r" ⟨"drwx", "u"⟩ (.cons (.file "a.py" ⟨"-rw-", "u"⟩ true "x=1") .nil)))
    ∧ process_run "/r" [] [] (some "key") (fun _ => .uncaughtError) "/r"
        (.dir "r" ⟨"drwx", "u"⟩ (.cons (.file "a.py" ⟨"-rw-", "u"⟩ true "x=1") .nil)) = none :=
  ⟨by decide,
    (C5_handled_failure_nonfatal "/r" [] [] (some "key") (fun _ => .timeoutError)
      (fun _ => .timeoutError) "/r"
      (.dir "r" ⟨"drwx", "u"⟩ (.cons (.file "a.py" ⟨"-rw-", "u"⟩ true "x=1") .nil))
      (by decide)).2.1 (fun _ => rfl),
    (C5_handled_failure_nonfatal "/r" [] [] (some "key") (fun _ => .uncaughtError)
      (fun _ => .uncaughtError) "/r"
      (.dir "r" ⟨"drwx", "u"⟩ (.cons (.file "a.py" ⟨"-rw-", "u"⟩ true "x=1") .nil))
      (by decide)).2.2.2
      ⟨"a.py", "/r/a.py", some fallbackDescription, "x=1"⟩ (by decide) rfl⟩

/-- C9: a record of the content reporter carries a description field
exactly when an API key is configured, the key counting as configured
when it is present and nonempty as in the program. -/
theorem C9_description_iff_key :
    ∀ (root_dir : String) (inc ign : List String) (api : Option String)
      (net : String → ApiResponse) (dp : String) (t : FSNode) (e : FileEntry),
    e ∈ process_walk root_dir inc ign api net dp t →
    e.description.isSome = truthyStr api := by
  intro root_dir inc ign api net dp t e he
  have hd := process_walk_desc root_dir inc ign api net dp t e he
  rw [hd]
  cases hk : truthyStr api <;> simp

/-- Witness for C9: with a configured key the produced record carries
a description, checked on a concrete one-file tree. -/
theorem C9_witness :
    ((⟨"a.py", "/r/a.py", some "fine", "x=1"⟩ : FileEntry) ∈
      process_walk "/r" [] [] (some "key") (fun _ => .success "fine" ⟨1, 2, 3⟩) "/r"
        (.dir "r" ⟨"drwx", "u"⟩ (.cons (.file "a.py" ⟨"-rw-", "u"⟩ true "x=1") .nil)))
    ∧ (FileEntry.description ⟨"a.py", "/r/a.py", some "fine", "x=1"⟩).isSome
        = truthyStr (some "key") :=
  ⟨by decide,
    C9_description_iff_key "/r" [] [] (some "key") (fun _ => .success "fine" ⟨1, 2, 3⟩) "/r"
      (.dir "r" ⟨"drwx", "u"⟩ (.cons (.file "a.py" ⟨"-rw-", "u"⟩ true "x=1") .nil))
      ⟨"a.py", "/r/a.py", some "fine", "x=1"⟩ (by decide)⟩

/-- The content descent distributes over concatenated child lists. -/
theorem process_walk_list_append (root_dir : String) (inc ign : List String)
    (api : Option String) (net : String → ApiResponse) :
    ∀ (dp : String) (u v : FSList),
    process_walk_list root_dir inc ign api net dp (u.append v)
      = process_walk_list root_dir inc ign api net dp u
        ++ process_walk_list root_dir inc ign api net dp v
  | dp, .nil, v => by simp [FSList.append, process_walk_list]
  | dp, .cons c t, v => by
      simp [FSList.append, process_walk_list,
        process_walk_list_append root_dir inc ign api net dp t v, List.append_assoc]

/-- The tree descent distributes over concatenated child lists. -/
theorem tree_walk_list_append (root_dir : String) (inc ign : List String) :
    ∀ (dp : String) (u v : FSList),
    tree_walk_list root_dir inc ign dp (u.append v)
      = tree_walk_list root_dir inc ign dp u ++ tree_walk_list root_dir inc ign dp v
  | dp, .nil, v => by simp [FSList.append, tree_walk_list]
  | dp, .cons c t, v => by
      simp [FSList.append, tree_walk_list,
        tree_walk_list_append root_dir inc ign dp t v, List.append_assoc]

/-- C2: a directory child rejected by the pattern matcher is pruned
before descent: the outputs of the content reporter, of the tree
reporter JSON and of the tree reporter text over the directory that
contains it equal the outputs over the same directory with the
rejected child and its whole subtree removed, whatever that subtree
holds. -/
theorem C2_pruned_subtree_invisible :
    ∀ (root_dir : String) (inc ign : List String) (api : Option String)
      (net : String → ApiResponse) (dp nm d : String) (fm dm : FMeta)
      (sub pre post : FSList),
    should_process (pjoin dp d) root_dir inc ign = false →
    process_walk root_dir inc ign api net dp
        (.dir nm fm (pre.append (.cons (.dir d dm sub) post)))
      = process_walk root_dir inc ign api net dp (.dir nm fm (pre.append post))
    ∧ tree_walk root_dir inc ign dp (.dir nm fm (pre.append (.cons (.dir d dm sub) post)))
      = tree_walk root_dir inc ign dp (.dir nm fm (pre.append post))
    ∧ tree_walk_text root_dir inc ign dp
        (.dir nm fm (pre.append (.cons (.dir d dm sub) post)))
      = tree_walk_text root_dir inc ign dp (.dir nm fm (pre.append post)) := by
  intro root_dir inc ign api net dp nm d fm dm sub pre post hsp
  have hpfe : processFileEntries root_dir inc ign api net dp
      (FSList.toList (pre.append (.cons (.dir d dm sub) post)))
      = processFileEntries root_dir inc ign api net dp (FSList.toList (pre.append post)) := by
    simp [processFileEntries, FSList.toList_append, FSList.toList,
      List.filterMap_append, List.filterMap_cons, fileEntryFor]
  have hpwl : process_walk_list root_dir inc ign api net dp
      (pre.append (.cons (.dir d dm sub) post))
      = process_walk_list root_dir inc ign api net dp (pre.append post) := by
    simp [process_walk_list_append, process_walk_list, hsp]
  have htel : tree_entry_list root_dir inc ign dp
      (FSList.toList (pre.append (.cons (.dir d dm sub) post)))
      = tree_entry_list root_dir inc ign dp (FSList.toList (pre.append post)) := by
    simp [tree_entry_list, FSList.toList_append, FSList.toList, List.filter_append,
      List.filter_cons, FSNode.isDir, FSNode.isFile, passes_sp, FSNode.name, hsp]
  have htwl : tree_walk_list root_dir inc ign dp (pre.append (.cons (.dir d dm sub) post))
      = tree_walk_list root_dir inc ign dp (pre.append post) := by
    simp [tree_walk_list_append, tree_walk_list, hsp]
  have htree : tree_walk root_dir inc ign dp
      (.dir nm fm (pre.append (.cons (.dir d dm sub) post)))
      = tree_walk root_dir inc ign dp (.dir nm fm (pre.append post)) := by
    simp [tree_walk, htel, htwl]
  refine ⟨?_, htree, ?_⟩
  · simp [process_walk, hpfe, hpwl]
  · simp [tree_walk_text, htree]

/-- Witness for C2 on a concrete tree: an ignored directory holding a
passing Python file contributes nothing to either reporter. -/
theorem C2_witness :
    should_process "/r/skip" "/r" [] ["skip"] = false ∧
    (process_walk "/r" [] ["skip"] none (fun _ => .timeoutError) "/r"
        (.dir "r" ⟨"drwx", "u"⟩
          ((FSList.cons (.file "a.py" ⟨"-rw-", "u"⟩ true "x=1") .nil).append
            (.cons (.dir "skip" ⟨"drwx", "u"⟩
              (.cons (.file "inner.py" ⟨"-rw-", "u"⟩ true "y=2") .nil)) .nil)))
      = process_walk "/r" [] ["skip"] none (fun _ => .timeoutError) "/r"
        (.dir "r" ⟨"drwx", "u"⟩
          ((FSList.cons (.file "a.py" ⟨"-rw-", "u"⟩ true "x=1") .nil).append .nil))
    ∧ tree_walk "/r" [] ["skip"] "/r"
        (.dir "r" ⟨"drwx", "u"⟩
          ((FSList.cons (.file "a.py" ⟨"-rw-", "u"⟩ true "x=1") .nil).append
            (.cons (.dir "skip" ⟨"drwx", "u"⟩
              (.cons (.file "inner.py" ⟨"-rw-", "u"⟩ true "y=2") .nil)) .nil)))
      = tree_walk "/r" [] ["skip"] "/r"
        (.dir "r" ⟨"drwx", "u"⟩
          ((FSList.cons (.file "a.py" ⟨"-rw-", "u"⟩ true "x=1") .nil).append .nil))
    ∧ tree_walk_text "/r" [] ["skip"] "/r"
        (.dir "r" ⟨"drwx", "u"⟩
          ((FSList.cons (.file "a.py" ⟨"-rw-", "u"⟩ true "x=1") .nil).append
            (.cons (.dir "skip" ⟨"drwx", "u"⟩
              (.cons (.file "inner.py" ⟨"-rw-", "u"⟩ true "y=2") .nil)) .nil)))
      = tree_walk_text "/r" [] ["skip"] "/r"
        (.dir "r" ⟨"drwx", "u"⟩
          ((FSList.cons (.file "a.py" ⟨"-rw-", "u"⟩ true "x=1") .nil).append .nil))) :=
  ⟨by decide,
    C2_pruned_subtree_invisible "/r" [] ["skip"] none (fun _ => .timeoutError) "/r" "r" "skip"
      ⟨"drwx", "u"⟩ ⟨"drwx", "u"⟩
      (.cons (.file "inner.py" ⟨"-rw-", "u"⟩ true "y=2") .nil)
      (.cons (.file "a.py" ⟨"-rw-", "u"⟩ true "x=1") .nil) .nil (by decide)⟩

/-- filterMap of a guarded some over elements that all pass the guard
is a plain map. -/
theorem filterMap_pass_eq_map {α β : Type} (p : α → Bool) (f : α → β) :
    ∀ l : List α, (∀ c ∈ l, p c = true) →
    (l.filterMap fun c => if p c then some (f c) else none) = l.map f := by
  intro l hl
  induction l with
  | nil => rfl
  | cons a t ih =>
    have ha := hl a (by simp)
    simp [List.filterMap_cons, ha, ih (fun c hc => hl c (by simp [hc]))]

/-- The entry list of a visited directory section: the passing child
directories in enumeration order, then the passing child files in
enumeration order. -/
theorem tree_entry_list_eq (root_dir : String) (inc ign : List String) (dp : String)
    (l : List FSNode) :
    tree_entry_list root_dir inc ign dp l
      = ((l.filter fun c => c.isDir && passes_sp root_dir inc ign dp c).map mkEntry)
        ++ ((l.filter fun c => c.isFile && passes_sp root_dir inc ign dp c).map mkEntry) := by
  simp only [tree_entry_list, List.filterMap_append]
  congr 1
  · apply filterMap_pass_eq_map
    intro c hc
    have hm := (List.mem_filter.mp hc).2
    rw [Bool.and_eq_true] at hm
    exact hm.2
  · rw [filterMap_guard_eq, filter_filter_and]

/-- C4 counterexample: in a directory whose enumeration yields a
passing file before a passing subdirectory, the emitted section lists
the subdirectory first, not the enumeration interleaving the claim
states. -/
theorem C4_counterexample :
    tree_walk "/r" [] [] "/r"
      (.dir "r" ⟨"drwxr-xr-x", "u"⟩
        (.cons (.file "b.txt" ⟨"-rw-r--r--", "u"⟩ true "x")
          (.cons (.dir "a" ⟨"drwxr-xr-x", "u"⟩ .nil) .nil)))
      = [⟨"/r", [⟨"a", "drwxr-xr-x", "u", "directory"⟩, ⟨"b.txt", "-rw-r--r--", "u", "file"⟩]⟩,
          ⟨"/r/a", []⟩]
    ∧ interleavedEntries "/r" [] [] "/r"
        (FSList.toList (.cons (.file "b.txt" ⟨"-rw-r--r--", "u"⟩ true "x")
          (.cons (.dir "a" ⟨"drwxr-xr-x", "u"⟩ .nil) .nil)))
      = [⟨"b.txt", "-rw-r--r--", "u", "file"⟩, ⟨"a", "drwxr-xr-x", "u", "directory"⟩]
    ∧ ([⟨"a", "drwxr-xr-x", "u", "directory"⟩, ⟨"b.txt", "-rw-r--r--", "u", "file"⟩] :
        List EntryInfo)
      ≠ [⟨"b.txt", "-rw-r--r--", "u", "file"⟩, ⟨"a", "drwxr-xr-x", "u", "directory"⟩] := by
  decide

/-- C4 amended: the emitted section of a visited directory is the
header line with the directory path, the ruler line, then one line
per passing child, with the passing child directories first in
enumeration order followed by the passing child files in enumeration
order. -/
theorem C4_section_layout :
    ∀ (root_dir : String) (inc ign : List String) (dp nm : String) (fm : FMeta)
      (children : FSList),
    should_process dp root_dir inc ign = true →
    tree_walk_text root_dir inc ign dp (.dir nm fm children)
      = (("Directory: " ++ dp) :: rulerLine dp ::
          (((children.toList.filter fun c => c.isDir && passes_sp root_dir inc ign dp c).map
              mkEntry
            ++ (children.toList.filter fun c => c.isFile && passes_sp root_dir inc ign dp c).map
              mkEntry).map render_entry))
        ++ tree_walk_list_text root_dir inc ign dp children := by
  intro root_dir inc ign dp nm fm children hsp
  simp [tree_walk_text, tree_walk, hsp, tree_entry_list_eq, render_section,
    tree_walk_list_text]

/-- Witness for C4 amended on the counterexample directory: the
section lists the passing subdirectory line before the passing file
line. -/
theorem C4_witness :
    should_process "/r" "/r" [] [] = true ∧
    tree_walk_text "/r" [] [] "/r"
      (.dir "r" ⟨"drwxr-xr-x", "u"⟩
        (.cons (.file "b.txt" ⟨"-rw-r--r--", "u"⟩ true "x")
          (.cons (.dir "a" ⟨"drwxr-xr-x", "u"⟩ .nil) .nil)))
      = (("Directory: " ++ "/r") :: rulerLine "/r" ::
          ((((FSList.cons (.file "b.txt" ⟨"-rw-r--r--", "u"⟩ true "x")
              (.cons (.dir "a" ⟨"drwxr-xr-x", "u"⟩ .nil) .nil)).toList.filter
                fun c => c.isDir && passes_sp "/r" [] [] "/r" c).map mkEntry
            ++ ((FSList.cons (.file "b.txt" ⟨"-rw-r--r--", "u"⟩ true "x")
              (.cons (.dir "a" ⟨"drwxr-xr-x", "u"⟩ .nil) .nil)).toList.filter
                fun c => c.isFile && passes_sp "/r" [] [] "/r" c).map mkEntry).map
            render_entry))
        ++ tree_walk_list_text "/r" [] [] "/r"
          (.cons (.file "b.txt" ⟨"-rw-r--r--", "u"⟩ true "x")
            (.cons (.dir "a" ⟨"drwxr-xr-x", "u"⟩ .nil) .nil)) :=
  ⟨by decide,
    C4_section_layout "/r" [] [] "/r" "r" ⟨"drwxr-xr-x", "u"⟩
      (.cons (.file "b.txt" ⟨"-rw-r--r--", "u"⟩ true "x")
        (.cons (.dir "a" ⟨"drwxr-xr-x", "u"⟩ .nil) .nil)) (by decide)⟩

example : fnmatch "x.py" "*.py" = true := by decide
example : fnmatch "x.pyc" "*.py" = false := by decide
example : fnmatch ".hidden" ".*" = true := by decide
example : fnmatch "cab" "c[a-z]b" = true := by decide
example : fnmatch "cAb" "c[!a-z]b" = true := by decide
example : fnmatch "a[b" "a[b" = true := by decide
example : fnmatch "anything" "*" = true := by decide
example : relpath "/r/a/b.py" "/r" = "a/b.py" := by decide
example : relpath "/r" "/r" = "." := by decide
example : relpath "/a/b" "/a/c" = "../b" := by decide
example : basename "/r/a/b.py" = "b.py" := by decide
example : should_process "/r" "/r" [] ["*"] = true := by decide
example : should_process "/r/x.py" "/r" [] ["*.py"] = false := by decide
example : should_process "/r/x.py" "/r" ["*.md"] [] = false := by decide
example : should_process "/r/x.py" "/r" [] [] = true := by decide

end CreateOverview
